import Mathlib

/-!
Verification of the BDLS signed-envelope and configuration-checking code
(repository `bdls`, Go).  The Go sources are shallowly embedded: byte
slices become `List Nat` (each entry a byte value), `big.Int` becomes
`Nat`, fallible/panicking Go paths become `Except`, and the streaming
blake2b hasher becomes explicit state passing.  The ECDSA primitive and
the blake2b compression function live outside the translated sources and
are modelled from the specification, as documented on each such
definition.
-/

namespace Bdls

/-- Byte strings: lists of byte values (each intended `< 256`). -/
abbrev Bytes := List Nat

/-- Source constant `SizeAxis = 32`: byte size of a public-key axis. -/
def SizeAxis : Nat := 32

/-- `ConfigMinimumParticipants = 4` from `config.go`. -/
def ConfigMinimumParticipants : Nat := 4

/-- Bytes of the source constant `SignaturePrefix`, the ASCII string
`"===Sperax Signed Message===\n"` (28 bytes). -/
def signaturePrefixBytes : Bytes :=
  [61, 61, 61, 83, 112, 101, 114, 97, 120, 32,
   83, 105, 103, 110, 101, 100, 32, 77, 101, 115, 115, 97, 103, 101,
   61, 61, 61, 10]

/-- Little-endian 4-byte encoding of a 32-bit value, as produced by
`binary.Write(h, binary.LittleEndian, v)` on a `uint32` (values are
truncated to 32 bits exactly as a Go `uint32` conversion would). -/
def le32 (n : Nat) : Bytes :=
  [n % 256, n / 256 % 256, n / 65536 % 256, n / 16777216 % 256]

/-- `big.Int.SetBytes`: interpret a byte string as a big-endian natural. -/
def bytesToNat (bs : Bytes) : Nat :=
  bs.foldl (fun acc b => acc * 256 + b) 0

/-- Fuel-driven core of `natBytes`; the fuel only serves structural
recursion and is irrelevant once it dominates the value (proved below). -/
def natBytesAux : Nat → Nat → Bytes
  | 0, _ => []
  | _, 0 => []
  | fuel + 1, n + 1 => natBytesAux fuel ((n + 1) / 256) ++ [(n + 1) % 256]

/-- `big.Int.Bytes`: minimal big-endian byte encoding of a natural
(`natBytes 0 = []`, no leading zero byte otherwise). -/
def natBytes (n : Nat) : Bytes := natBytesAux n n

theorem natBytesAux_fuel_irrel (n : Nat) :
    ∀ f₁ f₂, n ≤ f₁ → n ≤ f₂ → natBytesAux f₁ n = natBytesAux f₂ n := by
  induction n using Nat.strong_induction_on with
  | _ n ih =>
    intro f₁ f₂ h₁ h₂
    match n, f₁, f₂ with
    | 0, 0, 0 => rfl
    | 0, 0, _ + 1 => rfl
    | 0, _ + 1, 0 => rfl
    | 0, _ + 1, _ + 1 => rfl
    | n + 1, g₁ + 1, g₂ + 1 =>
      have hd : (n + 1) / 256 < n + 1 := Nat.div_lt_self (Nat.succ_pos n) (by omega)
      have e := ih ((n + 1) / 256) hd g₁ g₂ (by omega) (by omega)
      simp only [natBytesAux]
      rw [e]

/-- Unfolding equation for `natBytes` on a nonzero value. -/
theorem natBytes_pos (n : Nat) (h : n ≠ 0) :
    natBytes n = natBytes (n / 256) ++ [n % 256] := by
  match n, h with
  | n + 1, _ =>
    have hd : (n + 1) / 256 < n + 1 := Nat.div_lt_self (Nat.succ_pos n) (by omega)
    unfold natBytes
    show natBytesAux (n + 1) (n + 1) = _
    have : natBytesAux (n + 1) (n + 1)
        = natBytesAux n ((n + 1) / 256) ++ [(n + 1) % 256] := rfl
    rw [this,
      natBytesAux_fuel_irrel ((n + 1) / 256) n ((n + 1) / 256) (by omega) (le_refl _)]

theorem natBytes_zero : natBytes 0 = [] := rfl

theorem bytesToNat_append (bs₁ bs₂ : Bytes) :
    bytesToNat (bs₁ ++ bs₂) = bs₂.foldl (fun acc b => acc * 256 + b) (bytesToNat bs₁) := by
  simp [bytesToNat, List.foldl_append]

/-- `natBytes` decodes back to its argument: the big-endian round trip. -/
theorem bytesToNat_natBytes (n : Nat) : bytesToNat (natBytes n) = n := by
  induction n using Nat.strong_induction_on with
  | _ n ih =>
    by_cases h : n = 0
    · subst h; rfl
    · have hd : n / 256 < n := Nat.div_lt_self (Nat.pos_of_ne_zero h) (by omega)
      rw [natBytes_pos n h, bytesToNat_append]
      simp only [List.foldl_cons, List.foldl_nil, ih (n / 256) hd]
      omega

/-- Leading zero bytes do not change the decoded value. -/
theorem bytesToNat_replicate_zero (k : Nat) (bs : Bytes) :
    bytesToNat (List.replicate k 0 ++ bs) = bytesToNat bs := by
  induction k with
  | zero => rfl
  | succ k ih =>
    have : List.replicate (k + 1) 0 ++ bs = 0 :: (List.replicate k 0 ++ bs) := by
      simp [List.replicate_succ]
    rw [this]
    show List.foldl _ (0 * 256 + 0) _ = _
    simpa [bytesToNat] using ih

/-- The minimal encoding of `n < 256 ^ k` takes at most `k` bytes. -/
theorem natBytes_length_le (n k : Nat) (h : n < 256 ^ k) :
    (natBytes n).length ≤ k := by
  induction n using Nat.strong_induction_on generalizing k with
  | _ n ih =>
    by_cases h0 : n = 0
    · subst h0; simp [natBytes_zero]
    · have hd : n / 256 < n := Nat.div_lt_self (Nat.pos_of_ne_zero h0) (by omega)
      have hk : k ≠ 0 := by
        rintro rfl
        simp at h
        omega
      obtain ⟨k', rfl⟩ := Nat.exists_eq_succ_of_ne_zero hk
      have hlt : n / 256 < 256 ^ k' := by
        rw [Nat.div_lt_iff_lt_mul (by omega)]
        calc n < 256 ^ (k' + 1) := h
          _ = 256 ^ k' * 256 := by ring
      have := ih (n / 256) hd k' hlt
      rw [natBytes_pos n h0]
      simp only [List.length_append, List.length_cons, List.length_nil]
      omega

/-- The minimal encoding never starts with a zero byte. -/
theorem natBytes_no_leading_zero (n : Nat) : (natBytes n).head? ≠ some 0 := by
  induction n using Nat.strong_induction_on with
  | _ n ih =>
    by_cases h0 : n = 0
    · subst h0; simp [natBytes_zero]
    · have hd : n / 256 < n := Nat.div_lt_self (Nat.pos_of_ne_zero h0) (by omega)
      rw [natBytes_pos n h0]
      cases hq : natBytes (n / 256) with
      | nil =>
        have : n / 256 = 0 := by
          have := bytesToNat_natBytes (n / 256)
          rw [hq] at this
          simpa [bytesToNat] using this.symm
        have hn : n < 256 := by omega
        simp only [List.nil_append, List.head?_cons]
        have : n % 256 = n := Nat.mod_eq_of_lt hn
        rw [this]
        simpa using h0
      | cons b bs =>
        have := ih (n / 256) hd
        rw [hq] at this
        simpa using this

/-- Go errors / panic payloads reachable from the translated functions. -/
inductive GoErr where
  /-- `ErrPubKey`: "incorrect pubkey format". -/
  | errPubKey : GoErr
  /-- Error returned by the blake2b constructor on an oversized key. -/
  | errHashKeySize : GoErr
  deriving DecidableEq, Repr

/-- `PubKeyAxis`: a fixed 32-byte array (`[SizeAxis]byte`). -/
def PubKeyAxis := { bs : Bytes // bs.length = SizeAxis }

instance : DecidableEq PubKeyAxis := Subtype.instDecidableEq

/-- The Go zero value of `PubKeyAxis`: 32 zero bytes. -/
def PubKeyAxis.zero : PubKeyAxis := ⟨List.replicate SizeAxis 0, by simp⟩

/-- `PubKeyAxis.Unmarshal` from the source: rejects data longer than 32
bytes, otherwise copies it into the tail of the receiver, keeping the
receiver's existing leading bytes (`copy((*t)[off:], data)`). -/
def PubKeyAxis.Unmarshal (t : PubKeyAxis) (data : Bytes) : Except GoErr PubKeyAxis :=
  if h : SizeAxis < data.length then .error .errPubKey
  else .ok ⟨t.val.take (SizeAxis - data.length) ++ data, by
    have ht := t.property
    simp only [List.length_append, List.length_take, ht]
    omega⟩

/-- Left-zero padding of an (at most 32-byte) string to exactly 32 bytes. -/
def pad32 (bs : Bytes) : Bytes := List.replicate (SizeAxis - bs.length) 0 ++ bs

theorem pad32_length (bs : Bytes) (h : bs.length ≤ SizeAxis) :
    (pad32 bs).length = SizeAxis := by
  simp only [pad32, List.length_append, List.length_replicate]
  omega

/-- On a zeroed receiver, `Unmarshal` produces exactly the left-zero
padded 32-byte image of the data. -/
theorem unmarshal_zero (data : Bytes) (h : data.length ≤ SizeAxis) :
    PubKeyAxis.Unmarshal PubKeyAxis.zero data = .ok ⟨pad32 data, by rw [pad32_length data h]⟩ := by
  simp only [PubKeyAxis.Unmarshal, PubKeyAxis.zero]
  rw [dif_neg (by omega)]
  congr 1
  apply Subtype.ext
  show (List.replicate SizeAxis 0).take (SizeAxis - data.length) ++ data = pad32 data
  rw [List.take_replicate, pad32, Nat.min_eq_left (by omega)]

/-- `Coordinate`: the 64-byte concatenation of the two axes. -/
def Coordinate := { bs : Bytes // bs.length = 2 * SizeAxis }

instance : DecidableEq Coordinate := Subtype.instDecidableEq

/-- `Identity` stands for a participant identifier.  Modelled from the
spec: the `Identity` type is declared outside `src/`; per §3 it is the
64-byte coordinate pair of the signer's public key. -/
def Identity := Coordinate

/- ECDSA primitive, modelled from the spec.  `crypto/ecdsa`, the
secp256k1 implementation `crypto/btcec`, and key generation are outside
the translated sources.  Per spec §4.1 the model keeps exactly the
interface facts the code relies on: a fixed curve with coordinates below
the 256-bit secp256k1 field prime, a decidable on-curve test, a
deterministic derivation of a public point from a private key, and a
`sign`/`verify` pair where `verify` checks a signature equation against
the embedded public point and `sign`'s first component is derived from
the externally drawn random nonce (`rand.Reader`). -/

/-- The secp256k1 field prime `2^256 - 2^32 - 977` (`DefaultCurve`). -/
def secpP : Nat := 2 ^ 256 - 2 ^ 32 - 977

/-- Modelled from the spec: a private key is a scalar. -/
abbrev PrivateKey := Nat

/-- `ecdsa.PublicKey`: a coordinate pair of naturals (`big.Int`s). -/
structure PublicKey where
  x : Nat
  y : Nat
  deriving DecidableEq, Repr

/-- Modelled from the spec: decidable membership test for the default
curve; points have both coordinates reduced below the field prime and
satisfy the curve equation of the model. -/
def isOnCurve (x y : Nat) : Bool :=
  decide (x < secpP ∧ y < secpP ∧ y = (x * x * x + 7) % secpP)

/-- Modelled from the spec: the public point of a private key; a fixed
deterministic derivation producing an on-curve point. -/
def pubKeyOf (k : PrivateKey) : PublicKey :=
  ⟨k % secpP, ((k % secpP) * (k % secpP) * (k % secpP) + 7) % secpP⟩

/-- Modelled from the spec: `ecdsa.Sign(rand.Reader, priv, digest)`.
The drawn nonce is made explicit; the first signature component depends
only on it, the second binds the digest and the private scalar. -/
def ecdsaSign (k : PrivateKey) (digest : Bytes) (nonce : Nat) : Nat × Nat :=
  (nonce % secpP, (bytesToNat digest + k % secpP + nonce % secpP) % secpP)

/-- Modelled from the spec: `ecdsa.Verify(pub, digest, r, s)`; rejects
public points that are not on the curve and otherwise checks the
signature equation against the embedded public point. -/
def ecdsaVerify (pub : PublicKey) (digest : Bytes) (r s : Nat) : Bool :=
  isOnCurve pub.x pub.y && decide (s = (bytesToNat digest + pub.x + r) % secpP)

theorem pubKeyOf_x_lt (k : PrivateKey) : (pubKeyOf k).x < secpP :=
  Nat.mod_lt _ (by norm_num [secpP])

theorem pubKeyOf_y_lt (k : PrivateKey) : (pubKeyOf k).y < secpP :=
  Nat.mod_lt _ (by norm_num [secpP])

theorem secpP_lt : secpP < 256 ^ 32 := by norm_num [secpP]

theorem isOnCurve_pubKeyOf (k : PrivateKey) :
    isOnCurve (pubKeyOf k).x (pubKeyOf k).y = true := by
  simp only [isOnCurve, decide_eq_true_eq]
  exact ⟨pubKeyOf_x_lt k, pubKeyOf_y_lt k, rfl⟩

/-- `ecdsaVerify` accepts what `ecdsaSign` produced under the matching
public point. -/
theorem ecdsaVerify_ecdsaSign (k : PrivateKey) (digest : Bytes) (nonce : Nat) :
    ecdsaVerify (pubKeyOf k) digest (ecdsaSign k digest nonce).1 (ecdsaSign k digest nonce).2
      = true := by
  simp only [ecdsaVerify, ecdsaSign, isOnCurve_pubKeyOf, Bool.true_and, decide_eq_true_eq]
  rfl

/-- `newCoordFromPubKey` from the source: fresh zero axes, `Unmarshal`
of the minimal big-endian coordinate bytes into each (propagating the
panic on oversized coordinates as an error), then concatenation. -/
def newCoordFromPubKey (pubkey : PublicKey) : Except GoErr Coordinate := do
  let X ← PubKeyAxis.zero.Unmarshal (natBytes pubkey.x)
  let Y ← PubKeyAxis.zero.Unmarshal (natBytes pubkey.y)
  pure ⟨X.val ++ Y.val, by rw [List.length_append, X.property, Y.property]; omega⟩

/-- Inner protocol messages.  Modelled from the spec: the generated
protobuf `Message` type and `proto.Marshal` are outside `src/`; the
envelope treats a message only through its marshalled bytes, so a
message is modelled by those bytes. -/
abbrev Message := Bytes

/-- Modelled from the spec: `proto.Marshal` on an inner message; the
identity on the already-encoded bytes of the model. -/
def protoMarshal (m : Message) : Bytes := m

/-- Modelled from the spec: the constant `ProtocolVersion` is declared
outside `src/`; its concrete value affects no claim. -/
def ProtocolVersion : Nat := 1

/-- `SignedProto`: the signed-envelope record
`{version, x, y, message, r, s}`. -/
structure SignedProto where
  Version : Nat
  X : PubKeyAxis
  Y : PubKeyAxis
  Message : Bytes
  R : Bytes
  S : Bytes
  deriving DecidableEq

/-- The Go zero value of `SignedProto`, as allocated by `new` or a
literal before any field is written. -/
def SignedProto.zero : SignedProto :=
  ⟨0, PubKeyAxis.zero, PubKeyAxis.zero, [], [], []⟩

/-- State of a streaming blake2b hasher: its key and the bytes written
so far. -/
structure Blake2bState where
  key : Bytes
  buf : Bytes

/-- Modelled from the spec: `blake2b.New256(key)` from the repository's
`crypto/blake2b` (outside `src/`); yields a fresh 256-bit keyed hasher
and fails exactly on an oversized key (longer than the 64-byte block). -/
def blake2bNew256 (key : Bytes) : Except GoErr Blake2bState :=
  if key.length > 64 then .error .errHashKeySize else .ok ⟨key, []⟩

/-- `hash.Write`: appends to the stream; per the `hash.Hash` contract it
never returns an error. -/
def hashWrite (st : Blake2bState) (data : Bytes) : Except GoErr Blake2bState :=
  .ok { st with buf := st.buf ++ data }

/-- `binary.Write(h, binary.LittleEndian, v)` on a 32-bit value: writes
the four little-endian bytes; total for fixed-size data. -/
def binaryWriteUint32LE (st : Blake2bState) (v : Nat) : Except GoErr Blake2bState :=
  hashWrite st (le32 v)

/-- `hash.Sum(nil)`: finalize, applying the keyed compression `H` to the
accumulated stream.  `H` abstracts the blake2b-256 function, which lives
outside the translated sources. -/
def hashSum (H : Bytes → Bytes → Bytes) (st : Blake2bState) : Bytes :=
  H st.key st.buf

/-- `SignedProto.Hash` from the source: build a blake2b-256 hasher with
nil key, write prefix, version (LE32), X, Y, message length (LE32) and
message in order, each panic-on-error branch propagated as `Except`. -/
def SignedProto.Hash (H : Bytes → Bytes → Bytes) (sp : SignedProto) :
    Except GoErr Bytes := do
  let h ← blake2bNew256 []
  let h ← hashWrite h signaturePrefixBytes
  let h ← binaryWriteUint32LE h sp.Version
  let h ← hashWrite h sp.X.val
  let h ← hashWrite h sp.Y.val
  let h ← binaryWriteUint32LE h sp.Message.length
  let h ← hashWrite h sp.Message
  pure (hashSum H h)

/-- The canonical digest input stream of an envelope (written in the
order the source accumulates it). -/
def digestInput (sp : SignedProto) : Bytes :=
  ((((signaturePrefixBytes ++ le32 sp.Version) ++ sp.X.val) ++ sp.Y.val)
    ++ le32 sp.Message.length) ++ sp.Message

/-- `Hash` never fails and digests exactly the canonical stream keyed
with the empty key. -/
theorem hash_eq_digestInput (H : Bytes → Bytes → Bytes) (sp : SignedProto) :
    sp.Hash H = .ok (H [] (digestInput sp)) := rfl

/-- `SignedProto.Sign` from the source: marshal the message, set
version and message, unmarshal the public point of the private key into
X and Y (panicking on oversized coordinates), hash, ECDSA-sign the
digest with the externally drawn `nonce`, and store the minimal
big-endian signature components. -/
def SignedProto.Sign (H : Bytes → Bytes → Bytes) (sp : SignedProto)
    (m : Bdls.Message) (privateKey : PrivateKey) (nonce : Nat) :
    Except GoErr SignedProto := do
  let bts := protoMarshal m
  let sp := { sp with Version := ProtocolVersion, Message := bts }
  let X ← sp.X.Unmarshal (natBytes (pubKeyOf privateKey).x)
  let sp := { sp with X := X }
  let Y ← sp.Y.Unmarshal (natBytes (pubKeyOf privateKey).y)
  let sp := { sp with Y := Y }
  let hash ← sp.Hash H
  let rs := ecdsaSign privateKey hash nonce
  pure { sp with R := natBytes rs.1, S := natBytes rs.2 }

/-- `SignedProto.Verify` from the source: recompute the digest, decode
the embedded public point and signature components as big-endian
naturals, and ECDSA-verify. -/
def SignedProto.Verify (H : Bytes → Bytes → Bytes) (sp : SignedProto) :
    Except GoErr Bool := do
  let hash ← sp.Hash H
  let X := bytesToNat sp.X.val
  let Y := bytesToNat sp.Y.val
  let R := bytesToNat sp.R
  let S := bytesToNat sp.S
  pure (ecdsaVerify ⟨X, Y⟩ hash R S)

theorem except_ok_bind {ε α β : Type} (a : α) (f : α → Except ε β) :
    (Except.ok (ε := ε) a >>= f) = f a := rfl

theorem coord_x_bytes_le (k : PrivateKey) :
    (natBytes (pubKeyOf k).x).length ≤ SizeAxis :=
  natBytes_length_le _ 32 (lt_trans (pubKeyOf_x_lt k) secpP_lt)

theorem coord_y_bytes_le (k : PrivateKey) :
    (natBytes (pubKeyOf k).y).length ≤ SizeAxis :=
  natBytes_length_le _ 32 (lt_trans (pubKeyOf_y_lt k) secpP_lt)

/-- Closed form of `Sign` on a freshly allocated (zero-valued)
envelope. -/
def signedEnvelope (H : Bytes → Bytes → Bytes) (m : Bdls.Message)
    (k : PrivateKey) (nonce : Nat) : SignedProto :=
  let base : SignedProto :=
    { Version := ProtocolVersion
      X := ⟨pad32 (natBytes (pubKeyOf k).x), pad32_length _ (coord_x_bytes_le k)⟩
      Y := ⟨pad32 (natBytes (pubKeyOf k).y), pad32_length _ (coord_y_bytes_le k)⟩
      Message := protoMarshal m
      R := []
      S := [] }
  let rs := ecdsaSign k (H [] (digestInput base)) nonce
  { base with R := natBytes rs.1, S := natBytes rs.2 }

/-- `Sign` on a fresh envelope succeeds and produces the closed form. -/
theorem sign_zero_eq (H : Bytes → Bytes → Bytes) (m : Bdls.Message)
    (k : PrivateKey) (nonce : Nat) :
    SignedProto.zero.Sign H m k nonce = .ok (signedEnvelope H m k nonce) := by
  simp only [SignedProto.Sign, SignedProto.zero, protoMarshal]
  rw [unmarshal_zero _ (coord_x_bytes_le k)]
  rw [except_ok_bind]
  rw [unmarshal_zero _ (coord_y_bytes_le k)]
  rw [except_ok_bind]
  rw [hash_eq_digestInput]
  rw [except_ok_bind]
  rfl

theorem bytesToNat_pad32 (bs : Bytes) : bytesToNat (pad32 bs) = bytesToNat bs := by
  rw [pad32, bytesToNat_replicate_zero]

/-- The envelope produced by signing a fresh envelope verifies. -/
theorem verify_signedEnvelope (H : Bytes → Bytes → Bytes) (m : Bdls.Message)
    (k : PrivateKey) (nonce : Nat) :
    (signedEnvelope H m k nonce).Verify H = .ok true := by
  simp only [SignedProto.Verify]
  rw [hash_eq_digestInput, except_ok_bind]
  congr 1
  have hd : digestInput (signedEnvelope H m k nonce)
      = digestInput
        { Version := ProtocolVersion
          X := ⟨pad32 (natBytes (pubKeyOf k).x), pad32_length _ (coord_x_bytes_le k)⟩
          Y := ⟨pad32 (natBytes (pubKeyOf k).y), pad32_length _ (coord_y_bytes_le k)⟩
          Message := protoMarshal m
          R := []
          S := [] } := rfl
  have hX : bytesToNat (signedEnvelope H m k nonce).X.val = (pubKeyOf k).x := by
    show bytesToNat (pad32 (natBytes (pubKeyOf k).x)) = _
    rw [bytesToNat_pad32, bytesToNat_natBytes]
  have hY : bytesToNat (signedEnvelope H m k nonce).Y.val = (pubKeyOf k).y := by
    show bytesToNat (pad32 (natBytes (pubKeyOf k).y)) = _
    rw [bytesToNat_pad32, bytesToNat_natBytes]
  have hR : bytesToNat (signedEnvelope H m k nonce).R
      = (ecdsaSign k (H [] (digestInput (signedEnvelope H m k nonce))) nonce).1 := by
    rw [hd]
    exact bytesToNat_natBytes _
  have hS : bytesToNat (signedEnvelope H m k nonce).S
      = (ecdsaSign k (H [] (digestInput (signedEnvelope H m k nonce))) nonce).2 := by
    rw [hd]
    exact bytesToNat_natBytes _
  rw [hX, hY, hR, hS]
  exact ecdsaVerify_ecdsaSign k (H [] (digestInput (signedEnvelope H m k nonce))) nonce

/-- Application state: opaque bytes agreed upon (spec §3). -/
abbrev State := Bytes

/-- Configuration errors of package `bdls`.  The error values are
declared outside `src/` as distinct `errors.New` objects; modelled as
distinct constructors. -/
inductive ConfigErr where
  | errConfigEpoch : ConfigErr
  | errConfigStateCompare : ConfigErr
  | errConfigStateValidate : ConfigErr
  | errConfigPrivateKey : ConfigErr
  | errConfigParticipants : ConfigErr
  deriving DecidableEq, Repr

/-- `Config` from `config.go` (package `bdls`).  `time.Time` is
modelled as a natural with `IsZero ↔ = 0`; nilable function and pointer
fields become `Option`.  The `MessageValidator`, `MessageOutCallback`
and `PubKeyToIdentity` hooks mention the `Consensus` engine type, which
is outside `src/`; `VerifyConfig` does not examine them and they carry
no information used by any claim, so they are modelled as opaque
optional hooks. -/
structure Config where
  Epoch : Nat
  CurrentHeight : Nat
  PrivateKey : Option PrivateKey
  Participants : List Identity
  EnableCommitUnicast : Bool
  StateCompare : Option (State → State → Int)
  StateValidate : Option (State → Bool)
  MessageValidator : Option Unit
  MessageOutCallback : Option Unit
  PubKeyToIdentity : Option (PublicKey → Identity)

/-- `VerifyConfig` from `config.go` (package `bdls`): the five checks
in source order, `none` meaning the Go `nil` error. -/
def VerifyConfig (c : Config) : Option ConfigErr :=
  if c.Epoch = 0 then some .errConfigEpoch
  else if c.StateCompare.isNone then some .errConfigStateCompare
  else if c.StateValidate.isNone then some .errConfigStateValidate
  else if c.PrivateKey.isNone then some .errConfigPrivateKey
  else if c.Participants.length < ConfigMinimumParticipants then some .errConfigParticipants
  else none

end Bdls

namespace Consensus

open Bdls

/-- `StateHash` of package `consensus`: a hash value identifying a
state.  Modelled from the spec: the type is declared outside `src/`;
per the spec it is a fixed-size hash, treated as opaque bytes here. -/
abbrev StateHash := Bytes

/-- Configuration errors of package `consensus`.  The six error values
returned by its `VerifyConfig` are declared outside `src/` as distinct
`errors.New` objects; modelled as distinct constructors. -/
inductive ConfigErr where
  | errConfigEpoch : ConfigErr
  | errConfigStateNil : ConfigErr
  | errConfigLess : ConfigErr
  | errConfigValidateState : ConfigErr
  | errConfigPrivateKey : ConfigErr
  | errConfigParticipants : ConfigErr
  deriving DecidableEq, Repr

/-- `Config` from `consensus/config.go` (package `consensus`). -/
structure Config where
  Epoch : Nat
  CurrentHeight : Nat
  CurrentState : Option State
  PrivateKey : Option PrivateKey
  Participants : List PublicKey
  StateCompare : Option (State → State → Int)
  StateValidate : Option (State → Bool)
  StateHashFn : Option (State → StateHash)

/-- `VerifyConfig` from `consensus/config.go`: six checks in source
order, including the `CurrentState` nil check absent from package
`bdls`. -/
def VerifyConfig (c : Config) : Option ConfigErr :=
  if c.Epoch = 0 then some .errConfigEpoch
  else if c.CurrentState.isNone then some .errConfigStateNil
  else if c.StateCompare.isNone then some .errConfigLess
  else if c.StateValidate.isNone then some .errConfigValidateState
  else if c.PrivateKey.isNone then some .errConfigPrivateKey
  else if c.Participants.length < ConfigMinimumParticipants then some .errConfigParticipants
  else none

end Consensus

namespace Bdls

/-- Fixed digest function used by concrete witnesses: every stream maps
to the 32-byte zero digest. -/
def hashZero : Bytes → Bytes → Bytes := fun _ _ => List.replicate 32 0

/-- A `consensus.Config` whose epoch is set but whose current state is
nil: the first failing check is the `CurrentState` one. -/
def consensusStateNilConfig : Consensus.Config :=
  { Epoch := 1
    CurrentHeight := 0
    CurrentState := none
    PrivateKey := none
    Participants := []
    StateCompare := none
    StateValidate := none
    StateHashFn := none }

/-- Two envelopes agreeing on everything except the signature fields,
used to witness that `R` and `S` do not enter the digest. -/
def envelopeRS₁ : SignedProto :=
  { SignedProto.zero with R := [1], S := [2] }

/-- See `envelopeRS₁`: same envelope with different signature fields. -/
def envelopeRS₂ : SignedProto :=
  { SignedProto.zero with R := [3, 4], S := [] }

/-- C1: for every protocol message `m`, private key `k` over the
default curve and drawn nonce, signing a freshly allocated envelope and
then verifying it yields `true`. -/
theorem sign_then_verify_ok (H : Bytes → Bytes → Bytes) (m : Bdls.Message)
    (k : PrivateKey) (nonce : Nat) :
    (SignedProto.zero.Sign H m k nonce >>= fun sp => sp.Verify H) = .ok true := by
  rw [sign_zero_eq, except_ok_bind]
  exact verify_signedEnvelope H m k nonce

/-- C2: `Hash` equals the keyed 256-bit hash, with empty key, of the
prefix, the version (LE32), the X and Y axes, the message length (LE32)
and the message, concatenated in that order. -/
theorem hash_is_canonical_digest (H : Bytes → Bytes → Bytes) (sp : SignedProto) :
    sp.Hash H
      = .ok (H [] (signaturePrefixBytes ++ le32 sp.Version ++ sp.X.val ++ sp.Y.val
          ++ le32 sp.Message.length ++ sp.Message)) := by
  rw [hash_eq_digestInput]
  simp [digestInput, List.append_assoc]

/-- C3 counterexample: signing the same message with the same key twice
produces different envelope bytes when `ecdsa.Sign` draws different
nonces from `rand.Reader`, refuting byte-for-byte determinism of the
output as a function of (config, inputs, now) alone. -/
theorem sign_not_nonce_free : SignedProto.zero.Sign hashZero [] 1 1
    ≠ SignedProto.zero.Sign hashZero [] 1 2 := by
  rw [sign_zero_eq, sign_zero_eq]
  intro h
  have h2 := congrArg (fun e => Except.map SignedProto.R e) h
  simp only [Except.map] at h2
  have h3 : (signedEnvelope hashZero [] 1 1).R = (signedEnvelope hashZero [] 1 2).R :=
    Except.ok.inj h2
  revert h3
  decide

/-- C3 amended: with the ECDSA nonce made an explicit input, signing is
deterministic; two signatures of the same message under the same key
agree on every field other than `R` and `S` even for different nonces,
and agree entirely for equal nonces. -/
theorem sign_deterministic_given_nonce (H : Bytes → Bytes → Bytes)
    (m : Bdls.Message) (k : PrivateKey) (n₁ n₂ : Nat) (sp₁ sp₂ : SignedProto)
    (h₁ : SignedProto.zero.Sign H m k n₁ = .ok sp₁)
    (h₂ : SignedProto.zero.Sign H m k n₂ = .ok sp₂) :
    (sp₁.Version = sp₂.Version ∧ sp₁.X = sp₂.X ∧ sp₁.Y = sp₂.Y
      ∧ sp₁.Message = sp₂.Message)
    ∧ (n₁ = n₂ → sp₁ = sp₂) := by
  rw [sign_zero_eq] at h₁ h₂
  have e₁ := Except.ok.inj h₁
  have e₂ := Except.ok.inj h₂
  subst e₁
  subst e₂
  refine ⟨⟨rfl, rfl, rfl, rfl⟩, fun hn => by rw [hn]⟩

/-- Witness for the amended C3 theorem at message `[]`, key `1`,
nonces `1` and `2`. -/
theorem sign_deterministic_given_nonce_witness :
    ((signedEnvelope hashZero [] 1 1).Version = (signedEnvelope hashZero [] 1 2).Version
      ∧ (signedEnvelope hashZero [] 1 1).X = (signedEnvelope hashZero [] 1 2).X
      ∧ (signedEnvelope hashZero [] 1 1).Y = (signedEnvelope hashZero [] 1 2).Y
      ∧ (signedEnvelope hashZero [] 1 1).Message = (signedEnvelope hashZero [] 1 2).Message)
    ∧ ((1 : Nat) = 2
      → signedEnvelope hashZero [] 1 1 = signedEnvelope hashZero [] 1 2) :=
  sign_deterministic_given_nonce hashZero [] 1 1 2 _ _
    (sign_zero_eq hashZero [] 1 1) (sign_zero_eq hashZero [] 1 2)

/-- C4: an envelope whose embedded (X, Y) pair is not a point of the
default curve is rejected by `Verify`. -/
theorem verify_rejects_off_curve (H : Bytes → Bytes → Bytes) (sp : SignedProto)
    (h : isOnCurve (bytesToNat sp.X.val) (bytesToNat sp.Y.val) = false) :
    sp.Verify H = .ok false := by
  simp only [SignedProto.Verify]
  rw [hash_eq_digestInput, except_ok_bind]
  simp only [ecdsaVerify, h, Bool.false_and]
  rfl

/-- C5: `VerifyConfig` of package `bdls` returns nil exactly when the
epoch is set, the two state hooks and the private key are provided and
at least four participants are configured, and otherwise returns the
error of the first failing check in source order. -/
theorem verifyConfig_characterization (c : Config) :
    (VerifyConfig c = none
      ↔ c.Epoch ≠ 0 ∧ c.StateCompare ≠ none ∧ c.StateValidate ≠ none
        ∧ c.PrivateKey ≠ none ∧ ConfigMinimumParticipants ≤ c.Participants.length)
    ∧ (VerifyConfig c = some .errConfigEpoch ↔ c.Epoch = 0)
    ∧ (VerifyConfig c = some .errConfigStateCompare
      ↔ c.Epoch ≠ 0 ∧ c.StateCompare = none)
    ∧ (VerifyConfig c = some .errConfigStateValidate
      ↔ c.Epoch ≠ 0 ∧ c.StateCompare ≠ none ∧ c.StateValidate = none)
    ∧ (VerifyConfig c = some .errConfigPrivateKey
      ↔ c.Epoch ≠ 0 ∧ c.StateCompare ≠ none ∧ c.StateValidate ≠ none
        ∧ c.PrivateKey = none)
    ∧ (VerifyConfig c = some .errConfigParticipants
      ↔ c.Epoch ≠ 0 ∧ c.StateCompare ≠ none ∧ c.StateValidate ≠ none
        ∧ c.PrivateKey ≠ none ∧ c.Participants.length < ConfigMinimumParticipants) := by
  unfold VerifyConfig
  split_ifs with h1 h2 h3 h4 h5 <;>
    simp_all [Option.isNone_iff_eq_none]

/-- An envelope whose X axis is 32 `0xff` bytes: its decoded X
coordinate exceeds the field prime, hence is off the curve. -/
def offCurveEnvelope : SignedProto :=
  { Version := 1
    X := ⟨List.replicate 32 255, by simp [SizeAxis]⟩
    Y := PubKeyAxis.zero
    Message := []
    R := [1]
    S := [1] }

/-- Witness for C4: the all-`0xff` X axis decodes off the curve and the
envelope is rejected. -/
theorem verify_rejects_off_curve_witness :
    isOnCurve (bytesToNat offCurveEnvelope.X.val) (bytesToNat offCurveEnvelope.Y.val) = false
    ∧ offCurveEnvelope.Verify hashZero = .ok false :=
  ⟨by decide, verify_rejects_off_curve hashZero offCurveEnvelope (by decide)⟩

/-- C6 counterexample: with epoch set and current state nil, the
`consensus` package's `VerifyConfig` returns `ErrConfigStateNil`, an
error distinct from every error the claim's five-name list contains
(the list's `ErrConfigStateCompare` and `ErrConfigStateValidate` do not
even exist in that package). -/
theorem consensus_verifyConfig_sixth_error :
    Consensus.VerifyConfig consensusStateNilConfig = some .errConfigStateNil
    ∧ Consensus.ConfigErr.errConfigStateNil ≠ .errConfigEpoch
    ∧ Consensus.ConfigErr.errConfigStateNil ≠ .errConfigPrivateKey
    ∧ Consensus.ConfigErr.errConfigStateNil ≠ .errConfigParticipants := by
  refine ⟨rfl, by decide, by decide, by decide⟩

/-- C6 amended: `VerifyConfig` of package `consensus` returns nil or
one of exactly the six errors `ErrConfigEpoch`, `ErrConfigStateNil`,
`ErrConfigLess`, `ErrConfigValidateState`, `ErrConfigPrivateKey`,
`ErrConfigParticipants`. -/
theorem consensus_verifyConfig_errors (c : Consensus.Config) :
    Consensus.VerifyConfig c = none
    ∨ Consensus.VerifyConfig c = some .errConfigEpoch
    ∨ Consensus.VerifyConfig c = some .errConfigStateNil
    ∨ Consensus.VerifyConfig c = some .errConfigLess
    ∨ Consensus.VerifyConfig c = some .errConfigValidateState
    ∨ Consensus.VerifyConfig c = some .errConfigPrivateKey
    ∨ Consensus.VerifyConfig c = some .errConfigParticipants := by
  unfold Consensus.VerifyConfig
  split_ifs <;> simp

/-- C7: signing a freshly allocated envelope stores the private key's
public coordinates left-zero-padded to 32 bytes in X and Y, and the
signature components as minimal big-endian bytes (decoding back to the
components, with no leading zero byte) in R and S. -/
theorem sign_sets_fields (H : Bytes → Bytes → Bytes) (m : Bdls.Message)
    (k : PrivateKey) (nonce : Nat) (sp : SignedProto)
    (h : SignedProto.zero.Sign H m k nonce = .ok sp) :
    sp.Version = ProtocolVersion
    ∧ sp.X.val = pad32 (natBytes (pubKeyOf k).x)
    ∧ sp.Y.val = pad32 (natBytes (pubKeyOf k).y)
    ∧ sp.Message = protoMarshal m
    ∧ ∃ r s : Nat, ecdsaSign k (H [] (digestInput sp)) nonce = (r, s)
        ∧ sp.R = natBytes r ∧ sp.S = natBytes s
        ∧ bytesToNat sp.R = r ∧ bytesToNat sp.S = s
        ∧ sp.R.head? ≠ some 0 ∧ sp.S.head? ≠ some 0 := by
  rw [sign_zero_eq] at h
  have e := Except.ok.inj h
  subst e
  exact ⟨rfl, rfl, rfl, rfl, _, _, rfl, rfl, rfl,
    bytesToNat_natBytes _, bytesToNat_natBytes _,
    natBytes_no_leading_zero _, natBytes_no_leading_zero _⟩

/-- Witness for C7 at message `[5]`, key `3`, nonce `1`. -/
theorem sign_sets_fields_witness :
    (signedEnvelope hashZero [5] 3 1).Version = ProtocolVersion
    ∧ (signedEnvelope hashZero [5] 3 1).X.val = pad32 (natBytes (pubKeyOf 3).x)
    ∧ (signedEnvelope hashZero [5] 3 1).Y.val = pad32 (natBytes (pubKeyOf 3).y)
    ∧ (signedEnvelope hashZero [5] 3 1).Message = protoMarshal [5]
    ∧ ∃ r s : Nat,
        ecdsaSign 3 (hashZero [] (digestInput (signedEnvelope hashZero [5] 3 1))) 1 = (r, s)
        ∧ (signedEnvelope hashZero [5] 3 1).R = natBytes r
        ∧ (signedEnvelope hashZero [5] 3 1).S = natBytes s
        ∧ bytesToNat (signedEnvelope hashZero [5] 3 1).R = r
        ∧ bytesToNat (signedEnvelope hashZero [5] 3 1).S = s
        ∧ (signedEnvelope hashZero [5] 3 1).R.head? ≠ some 0
        ∧ (signedEnvelope hashZero [5] 3 1).S.head? ≠ some 0 :=
  sign_sets_fields hashZero [5] 3 1 _ (sign_zero_eq hashZero [5] 3 1)

/-- C8: for a public key whose coordinates fit in 32 bytes,
`newCoordFromPubKey` succeeds and returns the 64-byte concatenation of
the left-zero-padded X and Y coordinate bytes (and, being a pure
function, derives equal identities from equal keys). -/
theorem newCoordFromPubKey_concat (pubkey : PublicKey)
    (hx : pubkey.x < 256 ^ 32) (hy : pubkey.y < 256 ^ 32) :
    ∃ c : Coordinate, newCoordFromPubKey pubkey = .ok c
      ∧ c.val = pad32 (natBytes pubkey.x) ++ pad32 (natBytes pubkey.y)
      ∧ c.val.length = 64 := by
  have hx' : (natBytes pubkey.x).length ≤ SizeAxis := natBytes_length_le _ 32 hx
  have hy' : (natBytes pubkey.y).length ≤ SizeAxis := natBytes_length_le _ 32 hy
  have hl : (pad32 (natBytes pubkey.x) ++ pad32 (natBytes pubkey.y)).length = 2 * SizeAxis := by
    rw [List.length_append, pad32_length _ hx', pad32_length _ hy']
    omega
  refine ⟨⟨pad32 (natBytes pubkey.x) ++ pad32 (natBytes pubkey.y), hl⟩, ?_, rfl, by
    rw [hl]; decide⟩
  unfold newCoordFromPubKey
  rw [unmarshal_zero _ hx', except_ok_bind, unmarshal_zero _ hy', except_ok_bind]
  rfl

/-- Witness for C8 at the key coordinates (1, 2). -/
theorem newCoordFromPubKey_concat_witness :
    ∃ c : Coordinate, newCoordFromPubKey ⟨1, 2⟩ = .ok c
      ∧ c.val = pad32 (natBytes 1) ++ pad32 (natBytes 2)
      ∧ c.val.length = 64 :=
  newCoordFromPubKey_concat ⟨1, 2⟩ (by norm_num) (by norm_num)

/-- C9: `Hash` and `Verify` are total on every envelope value: each
returns a value (a digest, respectively a boolean) on every field
combination, with no reachable panic branch. -/
theorem hash_verify_total (H : Bytes → Bytes → Bytes) (sp : SignedProto) :
    (∃ d : Bytes, sp.Hash H = .ok d) ∧ (∃ b : Bool, sp.Verify H = .ok b) := by
  refine ⟨⟨H [] (digestInput sp), hash_eq_digestInput H sp⟩,
    ⟨ecdsaVerify ⟨bytesToNat sp.X.val, bytesToNat sp.Y.val⟩ (H [] (digestInput sp))
      (bytesToNat sp.R) (bytesToNat sp.S), ?_⟩⟩
  simp only [SignedProto.Verify]
  rw [hash_eq_digestInput, except_ok_bind]
  rfl

/-- C10: the digest of an envelope depends only on its version, axes
and message: the signature fields R and S do not influence it. -/
theorem hash_ignores_signature (H : Bytes → Bytes → Bytes) (sp₁ sp₂ : SignedProto)
    (hv : sp₁.Version = sp₂.Version) (hx : sp₁.X = sp₂.X) (hy : sp₁.Y = sp₂.Y)
    (hm : sp₁.Message = sp₂.Message) :
    sp₁.Hash H = sp₂.Hash H := by
  rw [hash_eq_digestInput, hash_eq_digestInput]
  unfold digestInput
  rw [hv, hx, hy, hm]

/-- Witness for C10: two envelopes differing only in R and S share a
digest. -/
theorem hash_ignores_signature_witness :
    envelopeRS₁.Hash hashZero = envelopeRS₂.Hash hashZero :=
  hash_ignores_signature hashZero envelopeRS₁ envelopeRS₂ rfl rfl rfl rfl

end Bdls
